import Mathlib

/-!
Verification of the update-google-sheets pipeline.

The development shallowly embeds the Go source:
* `src/src/sheets/update.go` — the canonical lookup/merge/commit pipeline
  (`mergeValues`, `cellHasValue`, `buildPayloads`, `batchUpdate`,
  `deriveRangesFromExcel`, `filterSheets`, `formatRange`, `Update`);
* `src/main.go` — the CLI variant of the merge engine
  (`preserveExistingValues`, its own untrimmed `cellHasValue`, here
  `cellHasValueCLI`, and `formatSheetRange`).

Cell values of Go type `interface` are modelled by their `fmt.Sprint`
rendering, a `String`; grids are row-major lists of lists of strings.
The external Google Sheets service is modelled by two oracles passed to the
pipeline: `fetch` (Values.Get) and `commit` (Values.BatchUpdate), each
returning `Except String`.  The excelize workbook is modelled as an
association list from worksheet name to its rows, mirroring
`GetSheetList`/`GetRows`.
-/

set_option autoImplicit false

namespace UpdateSheets

/-- The single-quote character, written by code point to keep source plain. -/
def squote : Char := Char.ofNat 39

/-- One-character string holding a single quote. -/
def squoteS : String := String.mk [squote]

/-- Whitespace predicate of Go `unicode.IsSpace`, used by `strings.TrimSpace`. -/
def goIsSpace (c : Char) : Bool :=
  let n := c.toNat
  n = 9 || n = 10 || n = 11 || n = 12 || n = 13 || n = 32 || n = 133 || n = 160 ||
  n = 0x1680 || (0x2000 ≤ n && n ≤ 0x200A) || n = 0x2028 || n = 0x2029 ||
  n = 0x202F || n = 0x205F || n = 0x3000

/-- Go `strings.TrimSpace`: drop leading and trailing whitespace. -/
def trimSpace (s : String) : String :=
  String.mk (((s.data.dropWhile goIsSpace).reverse.dropWhile goIsSpace).reverse)

/-- A row-major value grid; Go `values [][]interface` with cells rendered by
`fmt.Sprint`. -/
abbrev Grid := List (List String)

/-- The cell of `values` at zero-based (row, col), when both indices are in
range; mirrors the double indexing `values[row][col]`. -/
def cellAt (values : Grid) (row col : Nat) : Option String :=
  match values[row]? with
  | none => none
  | some rowVals => rowVals[col]?

/-- `cellHasValue` of src/src/sheets/update.go:123-131: bounds-checked lookup,
then `strings.TrimSpace(fmt.Sprint(values[row][col])) != ""`. -/
def cellHasValue (values : Grid) (row col : Nat) : Bool :=
  match values[row]? with
  | none => false
  | some rowVals =>
    match rowVals[col]? with
    | none => false
    | some v => decide (trimSpace v ≠ "")

/-- Inner loop of `mergeValues` over one desired row, carrying the running
column index `c`; yields the merged row and the write flag contribution. -/
def mergeRow (existing : Grid) (r : Nat) : Nat → List String → List String × Bool
  | _, [] => ([], false)
  | c, val :: rest =>
    let tail := mergeRow existing r (c + 1) rest
    if cellHasValue existing r c then
      (((cellAt existing r c).getD val) :: tail.1, tail.2)
    else
      (val :: tail.1, decide (trimSpace val ≠ "") || tail.2)

/-- Outer loop of `mergeValues` over desired rows, carrying the row index. -/
def mergeRows (existing : Grid) : Nat → Grid → Grid × Bool
  | _, [] => ([], false)
  | r, row :: rest =>
    let rowRes := mergeRow existing r 0 row
    let restRes := mergeRows existing (r + 1) rest
    (rowRes.1 :: restRes.1, rowRes.2 || restRes.2)

/-- `mergeValues` of src/src/sheets/update.go:103-121: keep every non-blank
existing cell, otherwise take the desired cell, flagging a write whenever a
desired value that is non-blank after trim lands in a blank/absent cell. -/
def mergeValues (existing desired : Grid) : Grid × Bool :=
  mergeRows existing 0 desired

/-- `cellHasValue` of src/main.go:301-309 (CLI variant): identical bounds
checks but compares `fmt.Sprint(values[row][col]) != ""` without trimming. -/
def cellHasValueCLI (values : Grid) (row col : Nat) : Bool :=
  match values[row]? with
  | none => false
  | some rowVals =>
    match rowVals[col]? with
    | none => false
    | some v => decide (v ≠ "")

/-- Inner loop of `preserveExistingValues` (src/main.go:281-299), per cell. -/
def preserveRow (existing : Grid) (r : Nat) : Nat → List String → List String × Bool
  | _, [] => ([], false)
  | c, val :: rest =>
    let tail := preserveRow existing r (c + 1) rest
    if cellHasValueCLI existing r c then
      (((cellAt existing r c).getD val) :: tail.1, tail.2)
    else
      (val :: tail.1, decide (val ≠ "") || tail.2)

/-- Outer loop of `preserveExistingValues`, per row. -/
def preserveRows (existing : Grid) : Nat → Grid → Grid × Bool
  | _, [] => ([], false)
  | r, row :: rest =>
    let rowRes := preserveRow existing r 0 row
    let restRes := preserveRows existing (r + 1) rest
    (rowRes.1 :: restRes.1, rowRes.2 || restRes.2)

/-- `preserveExistingValues` of src/main.go:281-299: same loop shape as
`mergeValues` but with the CLI has-value test and an untrimmed write flag. -/
def preserveExistingValues (existing incoming : Grid) : Grid × Bool :=
  preserveRows existing 0 incoming

/-- True when the worksheet name needs quoting; Go
`strings.ContainsAny(sheet, " !'")`. -/
def needsQuoting (sheet : String) : Bool :=
  sheet.data.any (fun ch => ch == ' ' || ch == '!' || ch == squote)

/-- Quote-doubling over a character list; Go
`strings.ReplaceAll(sheet, "'", "''")`. -/
def escapeList : List Char → List Char
  | [] => []
  | c :: rest =>
    if c = squote then squote :: squote :: escapeList rest else c :: escapeList rest

/-- String form of `escapeList`. -/
def escapeQuotes (s : String) : String := String.mk (escapeList s.data)

/-- `formatRange` of src/src/sheets/update.go:184-189. -/
def formatRange (sheet cell : String) : String :=
  if needsQuoting sheet then squoteS ++ escapeQuotes sheet ++ squoteS ++ "!" ++ cell
  else sheet ++ "!" ++ cell

/-- `formatSheetRange` of src/main.go:362-368, textually the same rule as
`formatRange`. -/
def formatSheetRange (sheet cell : String) : String :=
  if needsQuoting sheet then squoteS ++ escapeQuotes sheet ++ squoteS ++ "!" ++ cell
  else sheet ++ "!" ++ cell

/-- One-based column number to spreadsheet letters, fuel-indexed so the
recursion is structural; `columnName` supplies fuel `n`, always enough since
the argument shrinks by a factor of 26 each step.  Models the column part of
the external `excelize.CoordinatesToCellName`. -/
def columnNameAux : Nat → Nat → String
  | 0, _ => ""
  | _ + 1, 0 => ""
  | fuel + 1, n + 1 => columnNameAux fuel (n / 26) ++ String.mk [Char.ofNat (65 + n % 26)]

/-- One-based column number to letters: 1 ↦ A, 26 ↦ Z, 27 ↦ AA. -/
def columnName (n : Nat) : String := columnNameAux n n

/-- `excelize.CoordinatesToCellName (colIdx+1) (rowIdx+1)` for zero-based
indices: column letters followed by the one-based row number. -/
def cellNameOf (colIdx rowIdx : Nat) : String :=
  columnName (colIdx + 1) ++ toString (rowIdx + 1)

/-- The spec Range Formatter `format(worksheetName, rowIndex, columnIndex)`:
the composition the scanner performs at each match
(src/src/sheets/update.go:157-161). -/
def formatAddr (sheet : String) (rowIdx colIdx : Nat) : String :=
  formatRange sheet (cellNameOf colIdx rowIdx)

/-- A local workbook: worksheet name with its rows, in `GetSheetList` order;
models the excelize file handle the scanner reads. -/
abbrev Workbook := List (String × List (List String))

/-- `f.GetRows sheet`: the rows of the named worksheet (first occurrence). -/
def sheetRows (wb : Workbook) (name : String) : List (List String) :=
  match wb.find? (fun p => decide (p.1 = name)) with
  | some p => p.2
  | none => []

/-- `filterSheets` of src/src/sheets/update.go:172-182. -/
def filterSheets (all : List String) (filter : String) : List String :=
  if filter = "" then all
  else
    match all.find? (fun s => decide (s = filter)) with
    | some _ => [filter]
    | none => []

/-- Column loop of the scanner (src/src/sheets/update.go:153-162), carrying
the zero-based column index. -/
def scanRow (want sheetName : String) (ri : Nat) : Nat → List String → List String
  | _, [] => []
  | ci, cell :: rest =>
    if trimSpace cell = want then
      formatRange sheetName (cellNameOf ci ri) :: scanRow want sheetName ri (ci + 1) rest
    else scanRow want sheetName ri (ci + 1) rest

/-- Row loop of the scanner, carrying the zero-based row index. -/
def scanSheet (want sheetName : String) : Nat → List (List String) → List String
  | _, [] => []
  | ri, row :: rest =>
    scanRow want sheetName ri 0 row ++ scanSheet want sheetName (ri + 1) rest

/-- Worksheet loop of the scanner over the candidate worksheet names. -/
def scanSheets (wb : Workbook) (want : String) : List String → List String
  | [] => []
  | name :: rest => scanSheet want name 0 (sheetRows wb name) ++ scanSheets wb want rest

/-- `deriveRangesFromExcel` of src/src/sheets/update.go:133-170.  The workbook
is passed as an in-memory value, so the `excelize.OpenFile`/`GetRows` I/O
failure paths are not modelled; the two NotFound failure paths are. -/
def deriveRangesFromExcel (wb : Workbook) (path sheetFilter lookup : String) :
    Except String (List String) :=
  let want := trimSpace lookup
  let sheetsList := filterSheets (wb.map Prod.fst) sheetFilter
  if sheetFilter ≠ "" ∧ sheetsList = [] then
    .error ("sheet \"" ++ sheetFilter ++ "\" not found in " ++ path)
  else
    let found := scanSheets wb want sheetsList
    if found = [] then .error ("value \"" ++ lookup ++ "\" not found in " ++ path)
    else .ok found

/-- `sheets.ValueRange` as the pipeline fills it. -/
structure ValueRange where
  MajorDimension : String
  Range : String
  Values : Grid
deriving DecidableEq

/-- `sheets.BatchUpdateValuesRequest` as the pipeline fills it. -/
structure BatchUpdateValuesRequest where
  ValueInputOption : String
  IncludeValuesInResponse : Bool
  Data : List ValueRange
deriving DecidableEq

/-- The response fields the pipeline reads back. -/
structure BatchUpdateValuesResponse where
  TotalUpdatedCells : Int
  TotalUpdatedRows : Int
deriving DecidableEq

/-- The remote read oracle: `svc.Spreadsheets.Values.Get sheetID rng`. -/
abbrev FetchOracle := String → String → Except String Grid

/-- The remote write oracle: `svc.Spreadsheets.Values.BatchUpdate sheetID req`. -/
abbrev CommitOracle := String → BatchUpdateValuesRequest → Except String BatchUpdateValuesResponse

/-- `fetchRangeValues` of src/src/sheets/update.go:95-101. -/
def fetchRangeValues (fetch : FetchOracle) (sheetID rng : String) : Except String Grid :=
  match fetch sheetID rng with
  | .error e => .error ("fetch current value: " ++ e)
  | .ok v => .ok v

/-- `buildPayloads` of src/src/sheets/update.go:62-80: fetch each range in
order, merge, keep only ranges whose merge reported a write; the first fetch
failure aborts with a message naming the range. -/
def buildPayloads (fetch : FetchOracle) (sheetID : String) (desired : Grid) :
    List String → Except String (List ValueRange)
  | [] => .ok []
  | rng :: rest =>
    match fetchRangeValues fetch sheetID rng with
    | .error e => .error ("precondition failed for " ++ rng ++ ": " ++ e)
    | .ok existing =>
      match buildPayloads fetch sheetID desired rest with
      | .error e => .error e
      | .ok restP =>
        if (mergeValues existing desired).2 then
          .ok (⟨"ROWS", rng, (mergeValues existing desired).1⟩ :: restP)
        else .ok restP

/-- `batchUpdate` of src/src/sheets/update.go:82-93: one request carrying all
payloads, USER_ENTERED input option, values included in the response. -/
def batchUpdate (commit : CommitOracle) (sheetID : String) (data : List ValueRange) :
    Except String BatchUpdateValuesResponse :=
  match commit sheetID ⟨"USER_ENTERED", true, data⟩ with
  | .error e => .error ("batch update failed: " ++ e)
  | .ok resp => .ok resp

/-- `sheets.Summary` of src/src/sheets/update.go:16-21. -/
structure Summary where
  Ranges : List String
  TotalCells : Int
  TotalRows : Int
  SkippedReason : String
deriving DecidableEq

/-- The validated configuration fields `Update` reads. -/
structure Config where
  SpreadsheetID : String
  SheetFilter : String
  LookupValue : String

/-- `config.DefaultWorkbook` (cfg workbook path). -/
def DefaultWorkbook : String := "cfg/Schedule.xlsx"

/-- `Update` of src/src/sheets/update.go:24-60, with the remote service
supplied as the `fetch`/`commit` oracles and the local workbook as a value;
service construction (`sheets.NewService`) is outside the model. -/
def Update (wb : Workbook) (fetch : FetchOracle) (commit : CommitOracle) (cfg : Config) :
    Except String Summary :=
  let values : Grid := [[cfg.LookupValue]]
  match deriveRangesFromExcel wb DefaultWorkbook cfg.SheetFilter cfg.LookupValue with
  | .error e => .error e
  | .ok ranges =>
    match buildPayloads fetch cfg.SpreadsheetID values ranges with
    | .error e => .error e
    | .ok payloads =>
      if payloads = [] then .ok ⟨[], 0, 0, "all target cells already contain data"⟩
      else
        match batchUpdate commit cfg.SpreadsheetID payloads with
        | .error e => .error e
        | .ok resp =>
          .ok ⟨payloads.map ValueRange.Range, resp.TotalUpdatedCells, resp.TotalUpdatedRows, ""⟩

/-- A scanner match with its coordinates: (worksheet index, row index,
column index, worksheet name), all zero-based. -/
abbrev MatchPos := Nat × Nat × Nat × String

/-- The address the scanner emits for a match position. -/
def fmtMatch (t : MatchPos) : String := formatRange t.2.2.2 (cellNameOf t.2.2.1 t.2.1)

/-- Index-tracking mirror of `scanRow`: match positions instead of strings. -/
def scanRowIdx (want name : String) (si ri : Nat) : Nat → List String → List MatchPos
  | _, [] => []
  | ci, cell :: rest =>
    if trimSpace cell = want then
      (si, ri, ci, name) :: scanRowIdx want name si ri (ci + 1) rest
    else scanRowIdx want name si ri (ci + 1) rest

/-- Index-tracking mirror of `scanSheet`. -/
def scanSheetIdx (want name : String) (si : Nat) : Nat → List (List String) → List MatchPos
  | _, [] => []
  | ri, row :: rest =>
    scanRowIdx want name si ri 0 row ++ scanSheetIdx want name si (ri + 1) rest

/-- Index-tracking mirror of `scanSheets`. -/
def scanSheetsIdx (wb : Workbook) (want : String) : Nat → List String → List MatchPos
  | _, [] => []
  | si, name :: rest =>
    scanSheetIdx want name si 0 (sheetRows wb name) ++ scanSheetsIdx wb want (si + 1) rest

/-- Strict lexicographic order on match positions: worksheet order, then row
order, then column order. -/
def matchLt (a b : MatchPos) : Prop :=
  a.1 < b.1 ∨ (a.1 = b.1 ∧ (a.2.1 < b.2.1 ∨ (a.2.1 = b.2.1 ∧ a.2.2.1 < b.2.2.1)))

/-- The payload `buildPayloads` contributes for one range: present exactly
when the fetch succeeds and the merge reports a write. -/
def payloadFor (fetch : FetchOracle) (sheetID : String) (desired : Grid) (rng : String) :
    Option ValueRange :=
  match fetchRangeValues fetch sheetID rng with
  | .error _ => none
  | .ok existing =>
    if (mergeValues existing desired).2 then
      some ⟨"ROWS", rng, (mergeValues existing desired).1⟩
    else none

/-- The spec predicate for the merge write flag: some desired cell is
non-blank after trim while the existing grid is blank or absent there. -/
def WroteSpec (existing desired : Grid) : Prop :=
  ∃ r c row val, desired[r]? = some row ∧ row[c]? = some val ∧
    trimSpace val ≠ "" ∧ cellHasValue existing r c = false

/-- The quoted worksheet prefix `formatRange` builds for names that need
quoting: outer single quotes around the quote-doubled name. -/
def quotedName (sheet : String) : String := squoteS ++ escapeQuotes sheet ++ squoteS

/-- Greedy left-to-right replacement of each doubled single quote by a single
one, the inverse step of `escapeList`. -/
def decodeQuotes : List Char → List Char
  | [] => []
  | [c] => [c]
  | c1 :: c2 :: rest =>
    if c1 = squote ∧ c2 = squote then squote :: decodeQuotes rest
    else c1 :: decodeQuotes (c2 :: rest)

/-- Strip the outer single quotes of a quoted prefix and undouble the inner
quotes, per the claimed inversion recipe. -/
def unquoteName (p : String) : String :=
  String.mk (decodeQuotes ((p.data.drop 1).dropLast))

/-- Fixture workbook: one worksheet holding the label X at B2. -/
def wbOne : Workbook := [("Sheet1", [["", ""], ["", "X"]])]

/-- Fixture workbook with the label Y in two worksheets, three cells. -/
def wbTwo : Workbook := [("S1", [["Y", "a"], ["Y"]]), ("S2", [["x"], ["", "Y"]])]

/-- Fixture configuration targeting label X with no worksheet filter. -/
def cfgOne : Config := ⟨"sid", "", "X"⟩

/-- Fetch oracle whose every range reads back an empty grid. -/
def fetchEmpty : FetchOracle := fun _ _ => .ok []

/-- Fetch oracle whose every range reads back a filled single cell. -/
def fetchFilled : FetchOracle := fun _ _ => .ok [["occupied"]]

/-- Fetch oracle that reads back the post-first-run state for label X. -/
def fetchAfterRun : FetchOracle := fun _ _ => .ok [["X"]]

/-- Fetch oracle that always fails with a transport error. -/
def fetchBroken : FetchOracle := fun _ _ => .error "boom"

/-- Commit oracle that accepts any request and reports one-cell totals. -/
def commitOk : CommitOracle := fun _ _ => .ok ⟨1, 1⟩

/-- Commit oracle that always fails; used to show a run never commits. -/
def commitDead : CommitOracle := fun _ _ => .error "dead"

lemma cellHasValue_iff (values : Grid) (r c : Nat) :
    cellHasValue values r c = true ↔ ∃ v, cellAt values r c = some v ∧ trimSpace v ≠ "" := by
  unfold cellHasValue cellAt
  cases hr : values[r]? with
  | none => simp
  | some rowVals =>
    cases hc : rowVals[c]? with
    | none => simp [hc]
    | some v => simp [hc]

lemma cellHasValue_of_cellAt (values : Grid) (r c : Nat) (v : String)
    (h : cellAt values r c = some v) (hv : trimSpace v ≠ "") :
    cellHasValue values r c = true :=
  (cellHasValue_iff values r c).mpr ⟨v, h, hv⟩

lemma mergeRow_length (E : Grid) (r : Nat) :
    ∀ (row : List String) (c0 : Nat), (mergeRow E r c0 row).1.length = row.length := by
  intro row
  induction row with
  | nil => intro c0; rfl
  | cons val rest ih =>
    intro c0
    unfold mergeRow
    by_cases h : cellHasValue E r c0 = true
    · simp [h, ih (c0 + 1)]
    · simp [h, ih (c0 + 1)]

lemma mergeRow_getElem (E : Grid) (r : Nat) :
    ∀ (row : List String) (c0 k : Nat) (val : String), row[k]? = some val →
      (mergeRow E r c0 row).1[k]? =
        some (if cellHasValue E r (c0 + k) then (cellAt E r (c0 + k)).getD val else val) := by
  intro row
  induction row with
  | nil => intro c0 k val h; simp at h
  | cons v rest ih =>
    intro c0 k val h
    unfold mergeRow
    cases k with
    | zero =>
      rw [List.getElem?_cons_zero] at h
      cases h
      by_cases hv : cellHasValue E r c0 = true
      · simp [hv]
      · simp [hv]
    | succ k =>
      rw [List.getElem?_cons_succ] at h
      have := ih (c0 + 1) k val h
      have harith : c0 + 1 + k = c0 + (k + 1) := by omega
      rw [harith] at this
      by_cases hv : cellHasValue E r c0 = true
      · simpa [hv] using this
      · simpa [hv] using this

lemma mergeRow_snd (E : Grid) (r : Nat) :
    ∀ (row : List String) (c0 : Nat),
      (mergeRow E r c0 row).2 = true ↔
        ∃ k val, row[k]? = some val ∧ trimSpace val ≠ "" ∧
          cellHasValue E r (c0 + k) = false := by
  intro row
  induction row with
  | nil => intro c0; simp [mergeRow]
  | cons v rest ih =>
    intro c0
    unfold mergeRow
    by_cases hv : cellHasValue E r c0 = true
    · simp only [hv, if_true]
      rw [ih (c0 + 1)]
      constructor
      · rintro ⟨k, val, hk, hval, hcell⟩
        refine ⟨k + 1, val, ?_, hval, ?_⟩
        · simpa using hk
        · have : c0 + 1 + k = c0 + (k + 1) := by omega
          rwa [this] at hcell
      · rintro ⟨k, val, hk, hval, hcell⟩
        cases k with
        | zero =>
          rw [List.getElem?_cons_zero] at hk
          simp at hcell
          rw [hv] at hcell
          exact absurd hcell (by simp)
        | succ k =>
          rw [List.getElem?_cons_succ] at hk
          refine ⟨k, val, hk, hval, ?_⟩
          have : c0 + 1 + k = c0 + (k + 1) := by omega
          rwa [this]
    · have hv2 : cellHasValue E r c0 = false := by
        cases h2 : cellHasValue E r c0
        · rfl
        · exact absurd h2 hv
      simp only [hv2, Bool.false_eq_true, if_false, Bool.or_eq_true, decide_eq_true_eq]
      rw [ih (c0 + 1)]
      constructor
      · rintro (hval | ⟨k, val, hk, hval, hcell⟩)
        · exact ⟨0, v, by simp, hval, by simpa using hv2⟩
        · refine ⟨k + 1, val, by simpa using hk, hval, ?_⟩
          have : c0 + 1 + k = c0 + (k + 1) := by omega
          rwa [this] at hcell
      · rintro ⟨k, val, hk, hval, hcell⟩
        cases k with
        | zero =>
          rw [List.getElem?_cons_zero] at hk
          cases hk
          exact Or.inl hval
        | succ k =>
          rw [List.getElem?_cons_succ] at hk
          refine Or.inr ⟨k, val, hk, hval, ?_⟩
          have : c0 + 1 + k = c0 + (k + 1) := by omega
          rwa [this]

lemma mergeRows_getElem_row (E : Grid) :
    ∀ (D : Grid) (r0 j : Nat) (row : List String), D[j]? = some row →
      ((mergeRows E r0 D).1)[j]? = some (mergeRow E (r0 + j) 0 row).1 := by
  intro D
  induction D with
  | nil => intro r0 j row h; simp at h
  | cons d rest ih =>
    intro r0 j row h
    unfold mergeRows
    cases j with
    | zero =>
      rw [List.getElem?_cons_zero] at h
      cases h
      simp
    | succ j =>
      rw [List.getElem?_cons_succ] at h
      have := ih (r0 + 1) j row h
      have harith : r0 + 1 + j = r0 + (j + 1) := by omega
      rw [harith] at this
      simpa using this

lemma mergeRows_length (E : Grid) :
    ∀ (D : Grid) (r0 : Nat), (mergeRows E r0 D).1.length = D.length := by
  intro D
  induction D with
  | nil => intro r0; rfl
  | cons d rest ih => intro r0; simp [mergeRows, ih (r0 + 1)]

lemma mergeRows_shape (E : Grid) (D : Grid) (r0 j : Nat) :
    (((mergeRows E r0 D).1)[j]?).map List.length = (D[j]?).map List.length := by
  cases h : D[j]? with
  | none =>
    have hlen : D.length ≤ j := by
      by_contra hlt
      push_neg at hlt
      rw [List.getElem?_eq_getElem hlt] at h
      simp at h
    have : ((mergeRows E r0 D).1)[j]? = none := by
      apply List.getElem?_eq_none
      rw [mergeRows_length]
      exact hlen
    simp [this]
  | some row =>
    rw [mergeRows_getElem_row E D r0 j row h]
    simp [mergeRow_length]

lemma mergeRows_snd (E : Grid) :
    ∀ (D : Grid) (r0 : Nat),
      (mergeRows E r0 D).2 = true ↔
        ∃ j k row val, D[j]? = some row ∧ row[k]? = some val ∧
          trimSpace val ≠ "" ∧ cellHasValue E (r0 + j) k = false := by
  intro D
  induction D with
  | nil => intro r0; simp [mergeRows]
  | cons d rest ih =>
    intro r0
    unfold mergeRows
    simp only [Bool.or_eq_true]
    rw [mergeRow_snd E r0 d 0, ih (r0 + 1)]
    constructor
    · rintro (⟨k, val, hk, hval, hcell⟩ | ⟨j, k, row, val, hj, hk, hval, hcell⟩)
      · exact ⟨0, k, d, val, by simp, hk, hval, by simpa using hcell⟩
      · refine ⟨j + 1, k, row, val, by simpa using hj, hk, hval, ?_⟩
        have : r0 + 1 + j = r0 + (j + 1) := by omega
        rwa [this] at hcell
    · rintro ⟨j, k, row, val, hj, hk, hval, hcell⟩
      cases j with
      | zero =>
        rw [List.getElem?_cons_zero] at hj
        cases hj
        exact Or.inl ⟨k, val, hk, hval, by simpa using hcell⟩
      | succ j =>
        rw [List.getElem?_cons_succ] at hj
        refine Or.inr ⟨j, k, row, val, hj, hk, hval, ?_⟩
        have : r0 + 1 + j = r0 + (j + 1) := by omega
        rwa [this]

lemma mergeValues_cellAt (E D : Grid) (r c : Nat) (row : List String) (val : String)
    (hr : D[r]? = some row) (hc : row[c]? = some val) :
    cellAt (mergeValues E D).1 r c =
      some (if cellHasValue E r c then (cellAt E r c).getD val else val) := by
  unfold mergeValues cellAt
  rw [mergeRows_getElem_row E D 0 r row hr]
  have := mergeRow_getElem E (0 + r) row 0 c val hc
  simp only [Nat.zero_add] at this ⊢
  exact this

lemma mergeValues_snd_iff (E D : Grid) :
    (mergeValues E D).2 = true ↔ WroteSpec E D := by
  unfold mergeValues WroteSpec
  rw [mergeRows_snd E D 0]
  constructor
  · rintro ⟨j, k, row, val, hj, hk, hval, hcell⟩
    exact ⟨j, k, row, val, hj, hk, hval, by simpa using hcell⟩
  · rintro ⟨j, k, row, val, hj, hk, hval, hcell⟩
    exact ⟨j, k, row, val, hj, hk, hval, by simpa using hcell⟩

lemma mergeTwice_false (E D : Grid) :
    (mergeValues (mergeValues E D).1 D).2 = false := by
  by_contra h
  have h2 : (mergeValues (mergeValues E D).1 D).2 = true := by
    cases hx : (mergeValues (mergeValues E D).1 D).2
    · exact absurd hx h
    · rfl
  obtain ⟨j, k, row, val, hj, hk, hval, hcell⟩ := (mergeValues_snd_iff _ D).mp h2
  have hmc := mergeValues_cellAt E D j k row val hj hk
  by_cases he : cellHasValue E j k = true
  · obtain ⟨v, hv, hvt⟩ := (cellHasValue_iff E j k).mp he
    rw [if_pos he, hv, Option.getD_some] at hmc
    have : cellHasValue (mergeValues E D).1 j k = true :=
      cellHasValue_of_cellAt _ j k v hmc hvt
    rw [this] at hcell
    exact absurd hcell (by simp)
  · rw [if_neg he] at hmc
    have : cellHasValue (mergeValues E D).1 j k = true :=
      cellHasValue_of_cellAt _ j k val hmc hval
    rw [this] at hcell
    exact absurd hcell (by simp)

lemma trimSpace_empty : trimSpace "" = "" := rfl

lemma cellHasValueCLI_eq_of (E : Grid)
    (hE : ∀ row ∈ E, ∀ v ∈ row, trimSpace v = "" → v = "") (r c : Nat) :
    cellHasValueCLI E r c = cellHasValue E r c := by
  unfold cellHasValueCLI cellHasValue
  cases hr : E[r]? with
  | none => rfl
  | some rowVals =>
    show (match rowVals[c]? with | none => false | some v => decide (v ≠ "")) =
        (match rowVals[c]? with | none => false | some v => decide (trimSpace v ≠ ""))
    cases hc : rowVals[c]? with
    | none => rfl
    | some v =>
      have himp : trimSpace v = "" → v = "" :=
        hE rowVals (List.getElem?_mem hr) v (List.getElem?_mem hc)
      show decide (v ≠ "") = decide (trimSpace v ≠ "")
      exact decide_eq_decide.mpr
        ⟨fun hv ht => hv (himp ht), fun ht hv => ht (by rw [hv]; rfl)⟩

lemma preserveRow_eq (E : Grid)
    (hP : ∀ r c, cellHasValueCLI E r c = cellHasValue E r c) (r : Nat) :
    ∀ (row : List String) (c0 : Nat), (∀ v ∈ row, trimSpace v = "" → v = "") →
      preserveRow E r c0 row = mergeRow E r c0 row := by
  intro row
  induction row with
  | nil => intro c0 _; rfl
  | cons val rest ih =>
    intro c0 hrow
    have hval : trimSpace val = "" → val = "" := hrow val (by simp)
    have hrest : ∀ v ∈ rest, trimSpace v = "" → v = "" := fun v hv => hrow v (by simp [hv])
    unfold preserveRow mergeRow
    rw [ih (c0 + 1) hrest, hP r c0]
    by_cases hcv : cellHasValue E r c0 = true
    · rw [if_pos hcv, if_pos hcv]
    · rw [if_neg hcv, if_neg hcv]
      have hd : decide (val ≠ "") = decide (trimSpace val ≠ "") :=
        decide_eq_decide.mpr
          ⟨fun hv ht => hv (hval ht), fun ht hv => ht (by rw [hv]; rfl)⟩
      rw [hd]

lemma preserveRows_eq (E : Grid)
    (hP : ∀ r c, cellHasValueCLI E r c = cellHasValue E r c) :
    ∀ (D : Grid) (r0 : Nat), (∀ row ∈ D, ∀ v ∈ row, trimSpace v = "" → v = "") →
      preserveRows E r0 D = mergeRows E r0 D := by
  intro D
  induction D with
  | nil => intro r0 _; rfl
  | cons row rest ih =>
    intro r0 hD
    have hrow : ∀ v ∈ row, trimSpace v = "" → v = "" := hD row (by simp)
    have hrest : ∀ rw2 ∈ rest, ∀ v ∈ rw2, trimSpace v = "" → v = "" :=
      fun rw2 h2 => hD rw2 (by simp [h2])
    unfold preserveRows mergeRows
    rw [ih (r0 + 1) hrest, preserveRow_eq E hP r0 row 0 hrow]

lemma escapeList_eq_nil (l : List Char) : escapeList l = [] ↔ l = [] := by
  cases l with
  | nil => simp [escapeList]
  | cons c rest =>
    unfold escapeList
    by_cases hc : c = squote
    · simp [hc]
    · simp [hc]

lemma decode_escape : ∀ l : List Char, decodeQuotes (escapeList l) = l := by
  intro l
  induction l with
  | nil => rfl
  | cons c rest ih =>
    unfold escapeList
    by_cases hc : c = squote
    · subst hc
      rw [if_pos rfl]
      have heq : decodeQuotes (squote :: squote :: escapeList rest) =
          if squote = squote ∧ squote = squote then squote :: decodeQuotes (escapeList rest)
          else squote :: decodeQuotes (squote :: escapeList rest) := rfl
      rw [heq, if_pos ⟨rfl, rfl⟩, ih]
    · rw [if_neg hc]
      cases he : escapeList rest with
      | nil =>
        have hnil : rest = [] := (escapeList_eq_nil rest).mp he
        subst hnil
        rfl
      | cons d ds =>
        have heq : decodeQuotes (c :: d :: ds) =
            if c = squote ∧ d = squote then squote :: decodeQuotes ds
            else c :: decodeQuotes (d :: ds) := rfl
        rw [heq, if_neg (fun h => hc h.1), ← he, ih]

lemma quotedName_data (s : String) :
    (quotedName s).data = squote :: (escapeList s.data ++ [squote]) := by
  unfold quotedName squoteS escapeQuotes
  rw [String.data_append, String.data_append]
  rfl

lemma unquoteName_quotedName (s : String) : unquoteName (quotedName s) = s := by
  unfold unquoteName
  rw [quotedName_data]
  have h1 : (squote :: (escapeList s.data ++ [squote])).drop 1 =
      escapeList s.data ++ [squote] := rfl
  rw [h1, List.dropLast_concat, decode_escape]

lemma quotedName_ne_bare (s t : String) (ht : needsQuoting t = false) : quotedName s ≠ t := by
  intro h
  have hd : t.data = squote :: (escapeList s.data ++ [squote]) := by
    rw [← h]; exact quotedName_data s
  have hq : needsQuoting t = true := by
    unfold needsQuoting
    rw [hd]
    simp
  rw [hq] at ht
  exact absurd ht (by simp)

lemma scanRow_eq_map (want name : String) (si ri : Nat) :
    ∀ (row : List String) (c0 : Nat),
      scanRow want name ri c0 row = (scanRowIdx want name si ri c0 row).map fmtMatch := by
  intro row
  induction row with
  | nil => intro c0; rfl
  | cons cell rest ih =>
    intro c0
    unfold scanRow scanRowIdx
    by_cases h : trimSpace cell = want
    · rw [if_pos h, if_pos h, List.map_cons, ih (c0 + 1)]; rfl
    · rw [if_neg h, if_neg h, ih (c0 + 1)]

lemma scanSheet_eq_map (want name : String) (si : Nat) :
    ∀ (rows : List (List String)) (r0 : Nat),
      scanSheet want name r0 rows = (scanSheetIdx want name si r0 rows).map fmtMatch := by
  intro rows
  induction rows with
  | nil => intro r0; rfl
  | cons row rest ih =>
    intro r0
    unfold scanSheet scanSheetIdx
    rw [List.map_append, ih (r0 + 1), scanRow_eq_map want name si r0 row 0]

lemma scanSheets_eq_map (wb : Workbook) (want : String) :
    ∀ (names : List String) (s0 : Nat),
      scanSheets wb want names = (scanSheetsIdx wb want s0 names).map fmtMatch := by
  intro names
  induction names with
  | nil => intro s0; rfl
  | cons name rest ih =>
    intro s0
    unfold scanSheets scanSheetsIdx
    rw [List.map_append, ih (s0 + 1), scanSheet_eq_map want name s0 (sheetRows wb name) 0]

lemma mem_scanRowIdx (want name : String) (si ri : Nat) :
    ∀ (row : List String) (c0 : Nat) (t : MatchPos),
      t ∈ scanRowIdx want name si ri c0 row ↔
        ∃ k cell, row[k]? = some cell ∧ trimSpace cell = want ∧ t = (si, ri, c0 + k, name) := by
  intro row
  induction row with
  | nil => intro c0 t; simp [scanRowIdx]
  | cons cell rest ih =>
    intro c0 t
    unfold scanRowIdx
    by_cases h : trimSpace cell = want
    · rw [if_pos h, List.mem_cons, ih (c0 + 1)]
      constructor
      · rintro (ht | ⟨k, cl, hk, hcl, ht⟩)
        · exact ⟨0, cell, by simp, h, by simpa using ht⟩
        · refine ⟨k + 1, cl, by simpa using hk, hcl, ?_⟩
          have : c0 + 1 + k = c0 + (k + 1) := by omega
          rwa [this] at ht
      · rintro ⟨k, cl, hk, hcl, ht⟩
        cases k with
        | zero =>
          rw [List.getElem?_cons_zero] at hk
          cases hk
          exact Or.inl (by simpa using ht)
        | succ k =>
          rw [List.getElem?_cons_succ] at hk
          refine Or.inr ⟨k, cl, hk, hcl, ?_⟩
          have : c0 + 1 + k = c0 + (k + 1) := by omega
          rwa [this]
    · rw [if_neg h, ih (c0 + 1)]
      constructor
      · rintro ⟨k, cl, hk, hcl, ht⟩
        refine ⟨k + 1, cl, by simpa using hk, hcl, ?_⟩
        have : c0 + 1 + k = c0 + (k + 1) := by omega
        rwa [this] at ht
      · rintro ⟨k, cl, hk, hcl, ht⟩
        cases k with
        | zero =>
          rw [List.getElem?_cons_zero] at hk
          cases hk
          exact absurd hcl h
        | succ k =>
          rw [List.getElem?_cons_succ] at hk
          refine ⟨k, cl, hk, hcl, ?_⟩
          have : c0 + 1 + k = c0 + (k + 1) := by omega
          rwa [this]

lemma mem_scanSheetIdx (want name : String) (si : Nat) :
    ∀ (rows : List (List String)) (r0 : Nat) (t : MatchPos),
      t ∈ scanSheetIdx want name si r0 rows ↔
        ∃ j row k cell, rows[j]? = some row ∧ row[k]? = some cell ∧
          trimSpace cell = want ∧ t = (si, r0 + j, k, name) := by
  intro rows
  induction rows with
  | nil => intro r0 t; simp [scanSheetIdx]
  | cons row rest ih =>
    intro r0 t
    unfold scanSheetIdx
    rw [List.mem_append, mem_scanRowIdx want name si r0 row 0, ih (r0 + 1)]
    constructor
    · rintro (⟨k, cl, hk, hcl, ht⟩ | ⟨j, rw2, k, cl, hj, hk, hcl, ht⟩)
      · exact ⟨0, row, k, cl, by simp, hk, hcl, by simpa using ht⟩
      · refine ⟨j + 1, rw2, k, cl, by simpa using hj, hk, hcl, ?_⟩
        have : r0 + 1 + j = r0 + (j + 1) := by omega
        rwa [this] at ht
    · rintro ⟨j, rw2, k, cl, hj, hk, hcl, ht⟩
      cases j with
      | zero =>
        rw [List.getElem?_cons_zero] at hj
        cases hj
        exact Or.inl ⟨k, cl, hk, hcl, by simpa using ht⟩
      | succ j =>
        rw [List.getElem?_cons_succ] at hj
        refine Or.inr ⟨j, rw2, k, cl, hj, hk, hcl, ?_⟩
        have : r0 + 1 + j = r0 + (j + 1) := by omega
        rwa [this]

lemma mem_scanSheetsIdx (wb : Workbook) (want : String) :
    ∀ (names : List String) (s0 : Nat) (t : MatchPos),
      t ∈ scanSheetsIdx wb want s0 names ↔
        ∃ i name j row k cell, names[i]? = some name ∧ (sheetRows wb name)[j]? = some row ∧
          row[k]? = some cell ∧ trimSpace cell = want ∧ t = (s0 + i, j, k, name) := by
  intro names
  induction names with
  | nil => intro s0 t; simp [scanSheetsIdx]
  | cons name rest ih =>
    intro s0 t
    unfold scanSheetsIdx
    rw [List.mem_append, mem_scanSheetIdx want name s0 (sheetRows wb name) 0, ih (s0 + 1)]
    constructor
    · rintro (⟨j, rw2, k, cl, hj, hk, hcl, ht⟩ | ⟨i, nm, j, rw2, k, cl, hi, hj, hk, hcl, ht⟩)
      · exact ⟨0, name, j, rw2, k, cl, by simp, hj, hk, hcl, by simpa using ht⟩
      · refine ⟨i + 1, nm, j, rw2, k, cl, by simpa using hi, hj, hk, hcl, ?_⟩
        have : s0 + 1 + i = s0 + (i + 1) := by omega
        rwa [this] at ht
    · rintro ⟨i, nm, j, rw2, k, cl, hi, hj, hk, hcl, ht⟩
      cases i with
      | zero =>
        rw [List.getElem?_cons_zero] at hi
        cases hi
        exact Or.inl ⟨j, rw2, k, cl, hj, hk, hcl, by simpa using ht⟩
      | succ i =>
        rw [List.getElem?_cons_succ] at hi
        refine Or.inr ⟨i, nm, j, rw2, k, cl, hi, hj, hk, hcl, ?_⟩
        have : s0 + 1 + i = s0 + (i + 1) := by omega
        rwa [this]

lemma scanRowIdx_pairwise (want name : String) (si ri : Nat) :
    ∀ (row : List String) (c0 : Nat), List.Pairwise matchLt (scanRowIdx want name si ri c0 row) := by
  intro row
  induction row with
  | nil => intro c0; simp [scanRowIdx]
  | cons cell rest ih =>
    intro c0
    unfold scanRowIdx
    by_cases h : trimSpace cell = want
    · rw [if_pos h]
      refine List.Pairwise.cons ?_ (ih (c0 + 1))
      intro t ht
      obtain ⟨k, cl, _, _, ht⟩ := (mem_scanRowIdx want name si ri rest (c0 + 1) t).mp ht
      subst ht
      exact Or.inr ⟨rfl, Or.inr ⟨rfl, show c0 < c0 + 1 + k by omega⟩⟩
    · rw [if_neg h]; exact ih (c0 + 1)

lemma scanSheetIdx_pairwise (want name : String) (si : Nat) :
    ∀ (rows : List (List String)) (r0 : Nat),
      List.Pairwise matchLt (scanSheetIdx want name si r0 rows) := by
  intro rows
  induction rows with
  | nil => intro r0; simp [scanSheetIdx]
  | cons row rest ih =>
    intro r0
    unfold scanSheetIdx
    rw [List.pairwise_append]
    refine ⟨scanRowIdx_pairwise want name si r0 row 0, ih (r0 + 1), ?_⟩
    intro a ha b hb
    obtain ⟨k, cl, _, _, ha⟩ := (mem_scanRowIdx want name si r0 row 0 a).mp ha
    obtain ⟨j, rw2, k2, cl2, _, _, _, hb⟩ := (mem_scanSheetIdx want name si rest (r0 + 1) b).mp hb
    subst ha
    subst hb
    exact Or.inr ⟨rfl, Or.inl (show r0 < r0 + 1 + j by omega)⟩

lemma scanSheetsIdx_pairwise (wb : Workbook) (want : String) :
    ∀ (names : List String) (s0 : Nat),
      List.Pairwise matchLt (scanSheetsIdx wb want s0 names) := by
  intro names
  induction names with
  | nil => intro s0; simp [scanSheetsIdx]
  | cons name rest ih =>
    intro s0
    unfold scanSheetsIdx
    rw [List.pairwise_append]
    refine ⟨scanSheetIdx_pairwise want name s0 (sheetRows wb name) 0, ih (s0 + 1), ?_⟩
    intro a ha b hb
    obtain ⟨j, rw2, k, cl, _, _, _, ha⟩ :=
      (mem_scanSheetIdx want name s0 (sheetRows wb name) 0 a).mp ha
    obtain ⟨i, nm, j2, rw3, k2, cl2, _, _, _, _, hb⟩ :=
      (mem_scanSheetsIdx wb want rest (s0 + 1) b).mp hb
    subst ha
    subst hb
    exact Or.inl (show s0 < s0 + 1 + i by omega)

lemma scanRow_nil_of (want name : String) (ri : Nat) :
    ∀ (row : List String) (c0 : Nat), (∀ cell ∈ row, trimSpace cell ≠ want) →
      scanRow want name ri c0 row = [] := by
  intro row
  induction row with
  | nil => intro c0 _; rfl
  | cons cell rest ih =>
    intro c0 h
    unfold scanRow
    rw [if_neg (h cell (by simp)), ih (c0 + 1) (fun cl hcl => h cl (by simp [hcl]))]

lemma scanSheet_nil_of (want name : String) :
    ∀ (rows : List (List String)) (r0 : Nat),
      (∀ row ∈ rows, ∀ cell ∈ row, trimSpace cell ≠ want) →
      scanSheet want name r0 rows = [] := by
  intro rows
  induction rows with
  | nil => intro r0 _; rfl
  | cons row rest ih =>
    intro r0 h
    unfold scanSheet
    rw [scanRow_nil_of want name r0 row 0 (h row (by simp)),
      ih (r0 + 1) (fun rw2 h2 => h rw2 (by simp [h2]))]
    rfl

lemma scanSheets_nil_of (wb : Workbook) (want : String) :
    ∀ (names : List String),
      (∀ name ∈ names, ∀ row ∈ sheetRows wb name, ∀ cell ∈ row, trimSpace cell ≠ want) →
      scanSheets wb want names = [] := by
  intro names
  induction names with
  | nil => intro _; rfl
  | cons name rest ih =>
    intro h
    unfold scanSheets
    rw [scanSheet_nil_of want name (sheetRows wb name) 0 (h name (by simp)),
      ih (fun nm h2 => h nm (by simp [h2]))]
    rfl

lemma filterSheets_not_mem (all : List String) (filter : String)
    (hne : filter ≠ "") (h : filter ∉ all) : filterSheets all filter = [] := by
  unfold filterSheets
  rw [if_neg hne]
  cases hf : all.find? (fun s => decide (s = filter)) with
  | none => rfl
  | some s =>
    have hs : s ∈ all := List.mem_of_find?_eq_some hf
    have hp := List.find?_some hf
    simp only [decide_eq_true_eq] at hp
    subst hp
    exact absurd hs h

lemma filterSheets_mem (all : List String) (filter : String)
    (hne : filter ≠ "") (h : filter ∈ all) : filterSheets all filter = [filter] := by
  unfold filterSheets
  rw [if_neg hne]
  cases hf : all.find? (fun s => decide (s = filter)) with
  | none =>
    have := List.find?_eq_none.mp hf filter h
    simp at this
  | some s => rfl

lemma deriveRanges_ok_elim (wb : Workbook) (path filter lookup : String) (ms : List String)
    (h : deriveRangesFromExcel wb path filter lookup = .ok ms) :
    ms = scanSheets wb (trimSpace lookup) (filterSheets (wb.map Prod.fst) filter) ∧
      ms ≠ [] := by
  simp only [deriveRangesFromExcel] at h
  split at h
  · exact absurd h (by simp)
  · split at h
    · exact absurd h (by simp)
    · rename_i hcond hempty
      rw [Except.ok.injEq] at h
      subst h
      exact ⟨rfl, hempty⟩

lemma deriveRanges_err_filter (wb : Workbook) (path filter lookup : String)
    (hne : filter ≠ "") (hmem : filter ∉ wb.map Prod.fst) :
    deriveRangesFromExcel wb path filter lookup =
      .error ("sheet \"" ++ filter ++ "\" not found in " ++ path) := by
  have he : filterSheets (wb.map Prod.fst) filter = [] :=
    filterSheets_not_mem _ _ hne hmem
  simp only [deriveRangesFromExcel]
  rw [if_pos ⟨hne, he⟩]

lemma deriveRanges_err_value (wb : Workbook) (path filter lookup : String)
    (hcond : ¬(filter ≠ "" ∧ filterSheets (wb.map Prod.fst) filter = []))
    (hempty : scanSheets wb (trimSpace lookup) (filterSheets (wb.map Prod.fst) filter) = []) :
    deriveRangesFromExcel wb path filter lookup =
      .error ("value \"" ++ lookup ++ "\" not found in " ++ path) := by
  simp only [deriveRangesFromExcel]
  rw [if_neg hcond, if_pos hempty]

lemma payloadFor_some (fetch : FetchOracle) (sid : String) (desired : Grid) (rng : String)
    (p : ValueRange) (h : payloadFor fetch sid desired rng = some p) :
    p.MajorDimension = "ROWS" ∧ p.Range = rng ∧
      ∃ g, fetchRangeValues fetch sid rng = .ok g ∧ (mergeValues g desired).2 = true ∧
        p.Values = (mergeValues g desired).1 := by
  unfold payloadFor at h
  split at h
  · exact absurd h (by simp)
  · rename_i g hf
    split at h
    · rename_i hw
      rw [Option.some.injEq] at h
      subst h
      exact ⟨rfl, rfl, g, hf, hw, rfl⟩
    · exact absurd h (by simp)

lemma payloadFor_of_wrote (fetch : FetchOracle) (sid : String) (desired : Grid) (rng : String)
    (g : Grid) (hf : fetchRangeValues fetch sid rng = .ok g)
    (hw : (mergeValues g desired).2 = true) :
    payloadFor fetch sid desired rng = some ⟨"ROWS", rng, (mergeValues g desired).1⟩ := by
  unfold payloadFor
  rw [hf]
  simp [hw]

lemma buildPayloads_eq_filterMap (fetch : FetchOracle) (sid : String) (desired : Grid) :
    ∀ (ranges : List String) (ps : List ValueRange),
      buildPayloads fetch sid desired ranges = .ok ps →
      ps = ranges.filterMap (payloadFor fetch sid desired) := by
  intro ranges
  induction ranges with
  | nil =>
    intro ps h
    unfold buildPayloads at h
    rw [Except.ok.injEq] at h
    subst h
    rfl
  | cons rng rest ih =>
    intro ps h
    unfold buildPayloads at h
    split at h
    · exact absurd h (by simp)
    · rename_i g hf
      split at h
      · exact absurd h (by simp)
      · rename_i restP hb
        have hrest := ih restP hb
        split at h
        · rename_i hw
          rw [Except.ok.injEq] at h
          subst h
          have hp := payloadFor_of_wrote fetch sid desired rng g hf hw
          rw [hrest]
          simp [List.filterMap_cons, hp]
        · rename_i hw
          rw [Except.ok.injEq] at h
          subst h
          have hw2 : (mergeValues g desired).2 = false := by
            cases hx : (mergeValues g desired).2
            · rfl
            · exact absurd hx hw
          have hp : payloadFor fetch sid desired rng = none := by
            unfold payloadFor
            rw [hf]
            simp [hw2]
          rw [hrest]
          simp [List.filterMap_cons, hp]

lemma buildPayloads_err (fetch : FetchOracle) (sid : String) (desired : Grid) :
    ∀ (ranges : List String) (rng e : String), rng ∈ ranges → fetch sid rng = .error e →
      ∃ rng2 e2, rng2 ∈ ranges ∧ fetch sid rng2 = .error e2 ∧
        buildPayloads fetch sid desired ranges =
          .error ("precondition failed for " ++ rng2 ++ ": " ++
            ("fetch current value: " ++ e2)) := by
  intro ranges
  induction ranges with
  | nil => intro rng e h _; simp at h
  | cons r rest ih =>
    intro rng e hmem hf
    cases hfr : fetch sid r with
    | error e2 =>
      refine ⟨r, e2, by simp, hfr, ?_⟩
      have hfr2 : fetchRangeValues fetch sid r =
          .error ("fetch current value: " ++ e2) := by
        unfold fetchRangeValues
        rw [hfr]
      unfold buildPayloads
      rw [hfr2]
    | ok g =>
      have hfr2 : fetchRangeValues fetch sid r = .ok g := by
        unfold fetchRangeValues
        rw [hfr]
      have hmem2 : rng ∈ rest := by
        rcases List.mem_cons.mp hmem with h1 | h1
        · subst h1; rw [hf] at hfr; exact absurd hfr (by simp)
        · exact h1
      obtain ⟨rng2, e2, hm2, hf2, hb2⟩ := ih rng e hmem2 hf
      refine ⟨rng2, e2, by simp [hm2], hf2, ?_⟩
      unfold buildPayloads
      rw [hfr2, hb2]

lemma buildPayloads_ok_nil (fetch : FetchOracle) (sid : String) (desired : Grid) :
    ∀ (ranges : List String),
      (∀ rng ∈ ranges, ∃ g, fetchRangeValues fetch sid rng = .ok g ∧
        (mergeValues g desired).2 = false) →
      buildPayloads fetch sid desired ranges = .ok [] := by
  intro ranges
  induction ranges with
  | nil => intro _; rfl
  | cons r rest ih =>
    intro h
    obtain ⟨g, hg, hw⟩ := h r (by simp)
    have hrest := ih (fun rng h2 => h rng (List.mem_cons_of_mem _ h2))
    unfold buildPayloads
    rw [hg, hrest]
    simp [hw]

lemma Update_skip (wb : Workbook) (fetch : FetchOracle) (cfg : Config) (ranges : List String)
    (h1 : deriveRangesFromExcel wb DefaultWorkbook cfg.SheetFilter cfg.LookupValue = .ok ranges)
    (h2 : buildPayloads fetch cfg.SpreadsheetID [[cfg.LookupValue]] ranges = .ok []) :
    ∀ commit, Update wb fetch commit cfg =
      .ok ⟨[], 0, 0, "all target cells already contain data"⟩ := by
  intro commit
  simp [Update, h1, h2]

lemma Update_err_payloads (wb : Workbook) (fetch : FetchOracle) (cfg : Config)
    (ranges : List String) (e : String)
    (h1 : deriveRangesFromExcel wb DefaultWorkbook cfg.SheetFilter cfg.LookupValue = .ok ranges)
    (h2 : buildPayloads fetch cfg.SpreadsheetID [[cfg.LookupValue]] ranges = .error e) :
    ∀ commit, Update wb fetch commit cfg = .error e := by
  intro commit
  simp [Update, h1, h2]

/-- C1: `mergeValues` returns a grid with exactly the row/column shape of the
desired grid; a cell keeps the existing value whenever the existing grid has a
non-blank (post-trim) value there — existing data is never overwritten — and
takes the desired value otherwise (absent or ragged existing cells count as
blank); `wroteAnything` is true exactly when some desired cell is non-blank
after trim while the existing grid is blank or absent at that position; an
empty desired grid yields the empty grid with no write. -/
theorem mergeValues_spec (E D : Grid) :
    ((mergeValues E D).1.length = D.length)
    ∧ (∀ r : Nat, Option.map List.length (((mergeValues E D).1)[r]? : Option (List String)) =
        Option.map List.length (D[r]? : Option (List String)))
    ∧ (∀ r c row val, D[r]? = some row → row[c]? = some val →
        (cellHasValue E r c = true → cellAt (mergeValues E D).1 r c = cellAt E r c)
        ∧ (cellHasValue E r c = false → cellAt (mergeValues E D).1 r c = some val))
    ∧ ((mergeValues E D).2 = true ↔ WroteSpec E D)
    ∧ mergeValues E [] = ([], false) := by
  refine ⟨mergeRows_length E D 0, fun r => mergeRows_shape E D 0 r, ?_,
    mergeValues_snd_iff E D, rfl⟩
  intro r c row val hr hc
  have hmc := mergeValues_cellAt E D r c row val hr hc
  constructor
  · intro he
    obtain ⟨v, hv, _⟩ := (cellHasValue_iff E r c).mp he
    rw [if_pos he, hv, Option.getD_some] at hmc
    rw [hmc, hv]
  · intro he
    have hne : ¬(cellHasValue E r c = true) := by simp [he]
    rw [if_neg hne] at hmc
    exact hmc

/-- Witness for C1 at a concrete merge: the filled cell is preserved, the
whitespace-only cell is overwritten, and the write flag is set. -/
theorem mergeValues_spec_witness :
    cellAt (mergeValues [["a", " "]] [["x", "y"]]).1 0 0 = cellAt [["a", " "]] 0 0
    ∧ cellAt (mergeValues [["a", " "]] [["x", "y"]]).1 0 1 = some "y"
    ∧ (mergeValues [["a", " "]] [["x", "y"]]).2 = true := by
  have h := mergeValues_spec [["a", " "]] [["x", "y"]]
  refine ⟨(h.2.2.1 0 0 (["x", "y"]) "x" rfl rfl).1 (by decide),
    (h.2.2.1 0 1 (["x", "y"]) "y" rfl rfl).2 (by decide), ?_⟩
  exact (h.2.2.2.1).mpr ⟨0, 1, ["x", "y"], "y", rfl, rfl, by decide, by decide⟩

/-- C2: the merge is idempotent — merging the output of a merge against the
same desired grid reports no write — so a second pipeline run against the
state produced by a first run builds no payload and ends in the
nothing-to-write summary without touching the commit oracle. -/
theorem merge_idempotent :
    (∀ E D : Grid, (mergeValues (mergeValues E D).1 D).2 = false)
    ∧ (∀ (wb : Workbook) (cfg : Config) (fetch fetch2 : FetchOracle) (ranges : List String),
        deriveRangesFromExcel wb DefaultWorkbook cfg.SheetFilter cfg.LookupValue = .ok ranges →
        (∀ rng ∈ ranges, ∃ g, fetchRangeValues fetch cfg.SpreadsheetID rng = .ok g ∧
          fetchRangeValues fetch2 cfg.SpreadsheetID rng =
            .ok (mergeValues g [[cfg.LookupValue]]).1) →
        ∀ commit, Update wb fetch2 commit cfg =
          .ok ⟨[], 0, 0, "all target cells already contain data"⟩) := by
  refine ⟨mergeTwice_false, ?_⟩
  intro wb cfg fetch fetch2 ranges h1 h2 commit
  have hbp : buildPayloads fetch2 cfg.SpreadsheetID [[cfg.LookupValue]] ranges = .ok [] := by
    apply buildPayloads_ok_nil
    intro rng hmem
    obtain ⟨g, _, hg2⟩ := h2 rng hmem
    exact ⟨(mergeValues g [[cfg.LookupValue]]).1, hg2, mergeTwice_false g [[cfg.LookupValue]]⟩
  exact Update_skip wb fetch2 cfg ranges h1 hbp commit

/-- Witness for C2: a second run against the post-first-run remote state ends
in the nothing-to-write summary even under a commit oracle that always fails. -/
theorem merge_idempotent_witness :
    Update wbOne fetchAfterRun commitDead cfgOne =
      .ok ⟨[], 0, 0, "all target cells already contain data"⟩ :=
  merge_idempotent.2 wbOne cfgOne fetchEmpty fetchAfterRun ["Sheet1!B2"] rfl
    (fun _ _ => ⟨[], rfl, rfl⟩) commitDead

/-- C3: on success the scanner output is exactly the per-match formatted
addresses of the index-tracking scan; a position is scanned if and only if
the candidate worksheet list has the worksheet at that index and the cell
text equals the label after trimming (all matches, case-sensitive); and the
matches are strictly ordered by worksheet order, then row, then column. -/
theorem scan_spec (wb : Workbook) (path filter lookup : String) (ms : List String)
    (h : deriveRangesFromExcel wb path filter lookup = .ok ms) :
    ms = (scanSheetsIdx wb (trimSpace lookup) 0
        (filterSheets (wb.map Prod.fst) filter)).map fmtMatch
    ∧ List.Pairwise matchLt
        (scanSheetsIdx wb (trimSpace lookup) 0 (filterSheets (wb.map Prod.fst) filter))
    ∧ (∀ si name ri ci,
        (si, ri, ci, name) ∈ scanSheetsIdx wb (trimSpace lookup) 0
          (filterSheets (wb.map Prod.fst) filter) ↔
        ∃ row cell, (filterSheets (wb.map Prod.fst) filter)[si]? = some name ∧
          (sheetRows wb name)[ri]? = some row ∧ row[ci]? = some cell ∧
          trimSpace cell = trimSpace lookup) := by
  have hok := deriveRanges_ok_elim wb path filter lookup ms h
  refine ⟨?_, scanSheetsIdx_pairwise wb (trimSpace lookup) _ 0, ?_⟩
  · rw [hok.1]
    exact scanSheets_eq_map wb (trimSpace lookup) _ 0
  · intro si name ri ci
    rw [mem_scanSheetsIdx wb (trimSpace lookup) _ 0 (si, ri, ci, name)]
    constructor
    · rintro ⟨i, nm, j, row, k, cell, hi, hj, hk, hcl, ht⟩
      obtain ⟨e1, e2, e3, e4⟩ : si = 0 + i ∧ ri = j ∧ ci = k ∧ name = nm := by
        simpa [Prod.ext_iff] using ht
      rw [Nat.zero_add] at e1
      subst e1
      subst e2
      subst e3
      subst e4
      exact ⟨row, cell, hi, hj, hk, hcl⟩
    · rintro ⟨row, cell, hi, hj, hk, hcl⟩
      exact ⟨si, name, ri, row, ci, cell, hi, hj, hk, hcl, by simp⟩

/-- Witness for C3 at a workbook holding the label in two worksheets: the
scanner result is the formatted image of the three index-tracked matches. -/
theorem scan_spec_witness :
    ["S1!A1", "S1!A2", "S2!B2"] =
      (scanSheetsIdx wbTwo (trimSpace "Y") 0
        (filterSheets (wbTwo.map Prod.fst) "")).map fmtMatch :=
  (scan_spec wbTwo "p" "" "Y" ["S1!A1", "S1!A2", "S2!B2"] rfl).1

/-- C4: the formatted address is one-based column-letters plus row number
joined to the worksheet prefix with an exclamation point, the prefix being
the bare name unless it contains a space, exclamation point or single quote,
in which case it is single-quoted with inner quotes doubled; in particular
(0,0) gives A1 and the three spec examples hold. -/
theorem formatAddr_spec :
    (∀ sheet r c, formatAddr sheet r c =
      (if needsQuoting sheet then
        squoteS ++ escapeQuotes sheet ++ squoteS ++ "!" ++
          (columnName (c + 1) ++ toString (r + 1))
      else sheet ++ "!" ++ (columnName (c + 1) ++ toString (r + 1))))
    ∧ cellNameOf 0 0 = "A1"
    ∧ formatAddr "Sheet One" 0 0 = "\x27Sheet One\x27!A1"
    ∧ formatAddr "Sheet1" 1 2 = "Sheet1!C2"
    ∧ formatAddr "O\x27Brien\x27s" 0 0 = "\x27O\x27\x27Brien\x27\x27s\x27!A1" := by
  refine ⟨fun sheet r c => rfl, ?_, ?_, ?_, ?_⟩ <;> decide

/-- C5: a successful payload build is exactly the scan-ordered ranges whose
merge reported net-new content — an address is in the batch iff its merge
wrote — and when the list is empty the run succeeds with the
all-cells-already-contain-data summary, zero counts, for any commit oracle. -/
theorem payload_filter_spec (wb : Workbook) (cfg : Config) (fetch : FetchOracle)
    (ranges : List String) (ps : List ValueRange)
    (h1 : deriveRangesFromExcel wb DefaultWorkbook cfg.SheetFilter cfg.LookupValue = .ok ranges)
    (h2 : buildPayloads fetch cfg.SpreadsheetID [[cfg.LookupValue]] ranges = .ok ps) :
    ps = ranges.filterMap (payloadFor fetch cfg.SpreadsheetID [[cfg.LookupValue]])
    ∧ (∀ rng g, rng ∈ ranges → fetchRangeValues fetch cfg.SpreadsheetID rng = .ok g →
        ((∃ p, p ∈ ps ∧ p.Range = rng) ↔ (mergeValues g [[cfg.LookupValue]]).2 = true))
    ∧ (ps = [] → ∀ commit, Update wb fetch commit cfg =
        .ok ⟨[], 0, 0, "all target cells already contain data"⟩) := by
  have hfm := buildPayloads_eq_filterMap fetch cfg.SpreadsheetID [[cfg.LookupValue]] ranges ps h2
  refine ⟨hfm, ?_, ?_⟩
  · intro rng g hmem hfg
    constructor
    · rintro ⟨p, hp, hrng⟩
      rw [hfm] at hp
      obtain ⟨rng2, _, hpf⟩ := List.mem_filterMap.mp hp
      obtain ⟨_, hprng, g2, hfg2, hw2, _⟩ := payloadFor_some _ _ _ _ _ hpf
      rw [hrng] at hprng
      rw [← hprng] at hfg2
      rw [hfg] at hfg2
      rw [Except.ok.injEq] at hfg2
      rw [hfg2]
      exact hw2
    · intro hw
      refine ⟨⟨"ROWS", rng, (mergeValues g [[cfg.LookupValue]]).1⟩, ?_, rfl⟩
      rw [hfm]
      exact List.mem_filterMap.mpr ⟨rng, hmem, payloadFor_of_wrote _ _ _ rng g hfg hw⟩
  · intro hnil commit
    rw [hnil] at h2
    exact Update_skip wb fetch cfg ranges h1 h2 commit

/-- Witness for C5: against a fully occupied remote cell the run is skipped
with the expected reason even under a commit oracle that always fails. -/
theorem payload_filter_spec_witness :
    Update wbOne fetchFilled commitDead cfgOne =
      .ok ⟨[], 0, 0, "all target cells already contain data"⟩ :=
  (payload_filter_spec wbOne cfgOne fetchFilled ["Sheet1!B2"] [] rfl rfl).2.2 rfl commitDead

/-- C6: if the fetch of existing values fails for some derived address, the
whole run aborts with an error whose context prefix names the failing range,
and the result is the same for every commit oracle — no batch commit is
attempted, leaving the remote state untouched. -/
theorem fetch_failure_aborts (wb : Workbook) (cfg : Config) (fetch : FetchOracle)
    (ranges : List String) (rng e : String)
    (h1 : deriveRangesFromExcel wb DefaultWorkbook cfg.SheetFilter cfg.LookupValue = .ok ranges)
    (h2 : rng ∈ ranges) (h3 : fetch cfg.SpreadsheetID rng = .error e) :
    ∃ rng2 e2, rng2 ∈ ranges ∧ fetch cfg.SpreadsheetID rng2 = .error e2 ∧
      ∀ commit, Update wb fetch commit cfg =
        .error ("precondition failed for " ++ rng2 ++ ": " ++
          ("fetch current value: " ++ e2)) := by
  obtain ⟨rng2, e2, hm, hf, hb⟩ :=
    buildPayloads_err fetch cfg.SpreadsheetID [[cfg.LookupValue]] ranges rng e h2 h3
  exact ⟨rng2, e2, hm, hf, fun commit => Update_err_payloads wb fetch cfg ranges _ h1 hb commit⟩

/-- Witness for C6: with a fetch oracle that always fails, the run aborts with
the error naming the single derived range; the commit oracle is irrelevant. -/
theorem fetch_failure_aborts_witness :
    Update wbOne fetchBroken commitOk cfgOne =
      .error ("precondition failed for " ++ "Sheet1!B2" ++ ": " ++
        ("fetch current value: " ++ "boom")) := by
  obtain ⟨rng2, e2, hm, hf, hall⟩ := fetch_failure_aborts wbOne cfgOne fetchBroken
    ["Sheet1!B2"] "Sheet1!B2" "boom" rfl (List.mem_singleton.mpr rfl) rfl
  have hr : rng2 = "Sheet1!B2" := List.mem_singleton.mp hm
  subst hr
  have he : (Except.error "boom" : Except String Grid) = .error e2 := hf
  rw [Except.error.injEq] at he
  subst he
  exact hall commitOk

/-- C7: the commit path issues one batch request with value input option
USER_ENTERED, values included in the response, and only row-major payloads;
on success the summary lists the committed addresses in submission order with
the response aggregate counts. -/
theorem commit_batch_spec (wb : Workbook) (cfg : Config) (fetch : FetchOracle)
    (commit : CommitOracle) (ranges : List String) (ps : List ValueRange)
    (resp : BatchUpdateValuesResponse)
    (h1 : deriveRangesFromExcel wb DefaultWorkbook cfg.SheetFilter cfg.LookupValue = .ok ranges)
    (h2 : buildPayloads fetch cfg.SpreadsheetID [[cfg.LookupValue]] ranges = .ok ps)
    (h3 : ps ≠ [])
    (h4 : commit cfg.SpreadsheetID ⟨"USER_ENTERED", true, ps⟩ = .ok resp) :
    Update wb fetch commit cfg =
      .ok ⟨ps.map ValueRange.Range, resp.TotalUpdatedCells, resp.TotalUpdatedRows, ""⟩
    ∧ (∀ p ∈ ps, p.MajorDimension = "ROWS") := by
  constructor
  · have hbu : batchUpdate commit cfg.SpreadsheetID ps = .ok resp := by
      unfold batchUpdate
      rw [h4]
    simp [Update, h1, h2, h3, hbu]
  · intro p hp
    rw [buildPayloads_eq_filterMap _ _ _ ranges ps h2] at hp
    obtain ⟨rng2, _, hpf⟩ := List.mem_filterMap.mp hp
    exact (payloadFor_some _ _ _ _ _ hpf).1

/-- Witness for C7: a blank remote cell is filled through one USER_ENTERED
batch request and the summary lists the committed address with the counts. -/
theorem commit_batch_spec_witness :
    Update wbOne fetchEmpty commitOk cfgOne = .ok ⟨["Sheet1!B2"], 1, 1, ""⟩ :=
  (commit_batch_spec wbOne cfgOne fetchEmpty commitOk ["Sheet1!B2"]
    [⟨"ROWS", "Sheet1!B2", [["X"]]⟩] ⟨1, 1⟩ rfl rfl (by decide) rfl).1

/-- C8: the scanner fails with the sheet-not-found error when a non-empty
worksheet filter names no worksheet, fails with the value-not-found error
when the label matches no cell of any candidate worksheet, and both are
`Except.error` outcomes while a successful scan always carries at least one
match. -/
theorem scan_notfound_spec (wb : Workbook) (path filter lookup : String) :
    (filter ≠ "" → filter ∉ wb.map Prod.fst →
      deriveRangesFromExcel wb path filter lookup =
        .error ("sheet \"" ++ filter ++ "\" not found in " ++ path))
    ∧ ((filter = "" ∨ filter ∈ wb.map Prod.fst) →
        (∀ name ∈ filterSheets (wb.map Prod.fst) filter, ∀ row ∈ sheetRows wb name,
          ∀ cell ∈ row, trimSpace cell ≠ trimSpace lookup) →
        deriveRangesFromExcel wb path filter lookup =
          .error ("value \"" ++ lookup ++ "\" not found in " ++ path))
    ∧ (∀ ms, deriveRangesFromExcel wb path filter lookup = .ok ms → ms ≠ []) := by
  refine ⟨deriveRanges_err_filter wb path filter lookup, ?_, ?_⟩
  · intro hcand hno
    apply deriveRanges_err_value
    · rintro ⟨hne, hemp⟩
      rcases hcand with hc | hc
      · exact hne hc
      · rw [filterSheets_mem _ _ hne hc] at hemp
        exact absurd hemp (by simp)
    · exact scanSheets_nil_of wb (trimSpace lookup) _ hno
  · intro ms hok
    exact (deriveRanges_ok_elim wb path filter lookup ms hok).2

/-- Witness for C8: a filter naming a missing worksheet and a label occurring
nowhere each produce the corresponding NotFound error. -/
theorem scan_notfound_spec_witness :
    deriveRangesFromExcel wbTwo "p" "S3" "Y" = .error ("sheet \"S3\" not found in p")
    ∧ deriveRangesFromExcel wbTwo "p" "" "Z" = .error ("value \"Z\" not found in p") :=
  ⟨(scan_notfound_spec wbTwo "p" "S3" "Y").1 (by decide) (by decide),
   (scan_notfound_spec wbTwo "p" "" "Z").2.1 (Or.inl rfl) (by decide)⟩

/-- C9 (counterexample): the CLI variant counts a non-empty whitespace-only
cell as having a value, so it is not true that every variant treats
trimmed-empty cells as blank, and the two merge engines disagree on such
grids. -/
theorem merge_variants_differ :
    ¬(cellHasValueCLI [[" "]] 0 0 = false ∧
      preserveExistingValues [[" "]] [["x"]] = mergeValues [[" "]] [["x"]]) := by decide

/-- C9 (amended): the canonical predicate does treat trimmed-empty cells as
blank; the CLI predicate — and with it the CLI merge — agrees with the
canonical one exactly on grids free of non-empty whitespace-only cells. -/
theorem merge_variants_agree_spec (E D : Grid)
    (hE : ∀ row ∈ E, ∀ v ∈ row, trimSpace v = "" → v = "")
    (hD : ∀ row ∈ D, ∀ v ∈ row, trimSpace v = "" → v = "") :
    preserveExistingValues E D = mergeValues E D
    ∧ (∀ values : Grid, ∀ r c v, cellAt values r c = some v → trimSpace v = "" →
        cellHasValue values r c = false)
    ∧ (∀ r c, cellHasValueCLI E r c = cellHasValue E r c) := by
  have hP : ∀ r c, cellHasValueCLI E r c = cellHasValue E r c :=
    fun r c => cellHasValueCLI_eq_of E hE r c
  refine ⟨preserveRows_eq E hP D 0 hD, ?_, hP⟩
  intro values r c v hv ht
  cases hcv : cellHasValue values r c
  · rfl
  · obtain ⟨w, hw, hwt⟩ := (cellHasValue_iff values r c).mp hcv
    rw [hv] at hw
    injection hw with hvw
    rw [← hvw] at hwt
    exact absurd ht hwt

/-- Witness for C9 (amended) on whitespace-only-free grids. -/
theorem merge_variants_agree_witness :
    preserveExistingValues [["a"]] [["", "b"]] = mergeValues [["a"]] [["", "b"]] :=
  (merge_variants_agree_spec [["a"]] [["", "b"]] (by decide) (by decide)).1

/-- C10: for names that need quoting, the formatted prefix is the quoted
name; stripping its outer quotes and undoubling inner quotes recovers the
original name exactly, so the quoted prefixes of distinct names differ, and a
quoted prefix never collides with the bare prefix of a name that needs no
quoting. -/
theorem quoting_invertible :
    (∀ sheet cell, needsQuoting sheet = true →
      formatRange sheet cell = quotedName sheet ++ "!" ++ cell)
    ∧ (∀ sheet, unquoteName (quotedName sheet) = sheet)
    ∧ (∀ s t, quotedName s = quotedName t → s = t)
    ∧ (∀ s t, needsQuoting t = false → quotedName s ≠ t) := by
  refine ⟨?_, unquoteName_quotedName, ?_, ?_⟩
  · intro sheet cell h
    unfold formatRange
    rw [if_pos h]
    rfl
  · intro s t h
    have h2 := congrArg unquoteName h
    rwa [unquoteName_quotedName, unquoteName_quotedName] at h2
  · intro s t ht
    exact quotedName_ne_bare s t ht

/-- Witness for C10 at a quoted name with inner quotes. -/
theorem quoting_invertible_witness :
    formatRange "Sheet One" "A1" = quotedName "Sheet One" ++ "!" ++ "A1"
    ∧ unquoteName (quotedName "O\x27Brien\x27s") = "O\x27Brien\x27s" :=
  ⟨quoting_invertible.1 "Sheet One" "A1" (by decide),
   quoting_invertible.2.1 "O\x27Brien\x27s"⟩

end UpdateSheets
